import Mathlib

/-!
Verification of the agentic sampling loop and its conversation-state /
tool-dispatch machinery (`computer_use_demo/loop.py` and
`computer_use_demo/mcpclient.py`).

The transcript is a list of messages; each message has a role and content
that is either a plain string or a list of content blocks (mirroring the
dict-shaped `BetaMessageParam` values).  Content blocks carry a `cache`
flag modelling the presence of a `"cache_control"` key on the block dict.
Items nested inside a `tool_result` block's `content` list are modelled by
`TRItem` (image vs. any non-image dict item).
-/

namespace CompUse

/-- A content item nested inside a `tool_result` block's `content` list:
either an image dict (`{"type": "image", ...}`) or any other dict item. -/
inductive TRItem where
  | image (data : String)
  | nonImage (tag : String) (payload : String)
deriving DecidableEq, Repr

/-- The `content` field of a `tool_result` block: either a plain string
(as produced for error results) or a list of items. -/
inductive TRContent where
  | str (s : String)
  | items (l : List TRItem)
deriving DecidableEq, Repr

/-- Message roles occurring in the transcript. -/
inductive Role where
  | user
  | assistant
deriving DecidableEq, Repr

/-- A content block of a message (`BetaContentBlockParam`-shaped dict).
The `cache` flag models whether the dict carries a `"cache_control"` key. -/
inductive Block where
  | text (s : String) (cache : Bool)
  | thinking (s : String) (sig : Option String) (cache : Bool)
  | toolUse (id : String) (name : String) (input : List (String × String)) (cache : Bool)
  | toolResult (toolUseId : String) (content : TRContent) (isError : Bool) (cache : Bool)
deriving DecidableEq, Repr

/-- A message's `content` field: plain string or list of blocks. -/
inductive MsgContent where
  | str (s : String)
  | blocks (bs : List Block)
deriving DecidableEq, Repr

/-- One transcript entry (`BetaMessageParam`). -/
structure Message where
  role : Role
  content : MsgContent
deriving DecidableEq, Repr

/-- Is a nested tool-result item an image dict? (`content.get("type") == "image"`). -/
def isImageItem : TRItem → Bool
  | .image _ => true
  | .nonImage _ _ => false

/-- The nested item list of a block, as iterated by
`tool_result.get("content", [])`: a `tool_result` whose content is a list
yields its items; a string content yields no dict items (iterating a
string produces characters, never dicts), and non-`tool_result` blocks are
not collected at all. -/
def trContentOfBlock : Block → List TRItem
  | .toolResult _ (.items l) _ _ => l
  | _ => []

/-- Images counted inside one collected `tool_result` block. -/
def countImagesBlock (b : Block) : Nat :=
  (trContentOfBlock b).countP isImageItem

/-- Images counted inside one message (messages whose content is not a
list contribute no `tool_result` blocks). -/
def countImagesMsg (m : Message) : Nat :=
  match m.content with
  | .blocks bs => (bs.map countImagesBlock).sum
  | .str _ => 0

/-- `total_images` of `_maybe_filter_to_n_most_recent_images`. -/
def totalImages (msgs : List Message) : Nat :=
  (msgs.map countImagesMsg).sum

/-- The inner rewriting loop over one `tool_result.content` list:
each image is dropped while the removal counter is positive; everything
else (and images once the counter is exhausted) is kept.  Returns the new
list together with the remaining counter. -/
def pruneItems : Int → List TRItem → List TRItem × Int
  | k, [] => ([], k)
  | k, i :: rest =>
    if isImageItem i ∧ 0 < k then pruneItems (k - 1) rest
    else
      (i :: (pruneItems k rest).1, (pruneItems k rest).2)

/-- Rewriting step for one block: only a `tool_result` whose content is a
list is rewritten (`isinstance(tool_result.get("content"), list)`). -/
def pruneBlock : Int → Block → Block × Int
  | k, .toolResult id (.items l) e c =>
    ((.toolResult id (.items (pruneItems k l).1) e c), (pruneItems k l).2)
  | k, b => (b, k)

/-- Rewriting threaded through a message's block list in order. -/
def pruneBlocks : Int → List Block → List Block × Int
  | k, [] => ([], k)
  | k, b :: rest =>
    ((pruneBlock k b).1 :: (pruneBlocks (pruneBlock k b).2 rest).1,
      (pruneBlocks (pruneBlock k b).2 rest).2)

/-- Rewriting step for one message; messages whose content is a plain
string hold no collected `tool_result` blocks and are untouched. -/
def pruneMsg : Int → Message → Message × Int
  | k, ⟨role, .blocks bs⟩ =>
    (⟨role, .blocks (pruneBlocks k bs).1⟩, (pruneBlocks k bs).2)
  | k, m => (m, k)

/-- Rewriting threaded through the transcript in order (oldest first). -/
def pruneMsgs : Int → List Message → List Message × Int
  | k, [] => ([], k)
  | k, m :: rest =>
    ((pruneMsg k m).1 :: (pruneMsgs (pruneMsg k m).2 rest).1,
      (pruneMsgs (pruneMsg k m).2 rest).2)

/-- `_maybe_filter_to_n_most_recent_images(messages, images_to_keep,
min_removal_threshold)`.  `images_to_keep is None` returns the transcript
unchanged.  Otherwise `images_to_remove = total_images - images_to_keep`
is rounded with `images_to_remove -= images_to_remove % min_removal_threshold`
(Python `%` is `Int.fmod`; a zero modulus raises `ZeroDivisionError`) and
the rewriting loop drops that many images oldest-first. -/
def maybeFilterToNMostRecentImages (messages : List Message)
    (imagesToKeep : Option Int) (minRemovalThreshold : Int) :
    Except String (List Message) :=
  match imagesToKeep with
  | none => .ok messages
  | some keep =>
    let itr : Int := (totalImages messages : Int) - keep
    if minRemovalThreshold = 0 then
      .error "ZeroDivisionError: integer modulo by zero"
    else
      .ok (pruneMsgs (itr - Int.fmod itr minRemovalThreshold) messages).1

/-- Non-image items of one nested item list, in order. -/
def stripItems (l : List TRItem) : List TRItem :=
  l.filter (fun i => !isImageItem i)

/-- Erase all images from a block, keeping everything else. -/
def stripBlock : Block → Block
  | .toolResult id (.items l) e c => .toolResult id (.items (stripItems l)) e c
  | b => b

/-- Erase all images from a message, keeping everything else. -/
def stripMsg (m : Message) : Message :=
  match m with
  | ⟨role, .blocks bs⟩ => ⟨role, .blocks (bs.map stripBlock)⟩
  | m => m

/-- Erase all images from the transcript, keeping all other structure. -/
def stripMsgs (msgs : List Message) : List Message :=
  msgs.map stripMsg

/-- All nested tool-result items of the transcript, flattened in
transcript order. -/
def flatTR (msgs : List Message) : List TRItem :=
  msgs.flatMap fun m =>
    match m.content with
    | .blocks bs => bs.flatMap trContentOfBlock
    | .str _ => []

/-- The images of the transcript, oldest first. -/
def flatImages (msgs : List Message) : List TRItem :=
  (flatTR msgs).filter isImageItem

/-- Set or clear the `cache` flag of a block (`block["cache_control"] = ...`
resp. `block.pop("cache_control", None)`). -/
def setBlockCache (v : Bool) : Block → Block
  | .text s _ => .text s v
  | .thinking s sig _ => .thinking s sig v
  | .toolUse id n inp _ => .toolUse id n inp v
  | .toolResult id c e _ => .toolResult id c e v

/-- Rewrite the last block of a list (`content[-1]`). -/
def setLastCache (v : Bool) : List Block → List Block
  | [] => []
  | [b] => [setBlockCache v b]
  | b :: rest => b :: setLastCache v rest

/-- The reverse scan of `_inject_prompt_caching`, operating on the
reversed transcript with the remaining breakpoint budget.  A user message
with list content and a nonzero budget gets `cache_control` set on its
last block; with the budget exhausted its last block's `cache_control` is
popped and the scan `break`s, leaving all older messages untouched.
Indexing `content[-1]` of an empty list raises `IndexError`. -/
def injectAux : Nat → List Message → Except String (List Message)
  | _, [] => .ok []
  | bp, m :: rest =>
    match m with
    | ⟨.user, .blocks bs⟩ =>
      if bs.isEmpty then .error "IndexError: list index out of range"
      else if bp ≠ 0 then
        (injectAux (bp - 1) rest).map
          (fun r => ⟨.user, .blocks (setLastCache true bs)⟩ :: r)
      else
        .ok (⟨.user, .blocks (setLastCache false bs)⟩ :: rest)
    | _ => (injectAux bp rest).map (fun r => m :: r)

/-- `_inject_prompt_caching(messages)`: scan the transcript in reverse
with `breakpoints_remaining = 3`. -/
def injectPromptCaching (msgs : List Message) : Except String (List Message) :=
  (injectAux 3 msgs.reverse).map List.reverse

/-- The execution-side tool result.  Modelled from the spec: the class
itself lives in `computer_use_demo/tools/base.py`, which is not part of
the provided sources; per the spec it is a value object with optional
output text, optional error text, optional single base64 image payload
and an optional system annotation. -/
structure ToolResultV where
  output : Option String := none
  error : Option String := none
  base64Image : Option String := none
  system : Option String := none
deriving DecidableEq, Repr

/-- A content item of a remote (MCP) tool response. -/
inductive RItem where
  | text (s : String)
  | image (data : String)
  | other (tag : String)
deriving DecidableEq, Repr

/-- One connected MCP session: the tool names it reports via
`list_tools()` and the response content produced by `call_tool`. -/
structure Session where
  toolNames : List String
  respond : String → List (String × String) → List RItem

/-- Build a `ToolResult` from the head item of a remote response, as
`MCPClient.call_tool` does: `item = temp_result.content[0]` (raising
`IndexError` on an empty list), then text/image items are accepted and
anything else raises `ValueError`. -/
def resultOfFirstItem : Option RItem → Except String ToolResultV
  | none => .error "IndexError: list index out of range"
  | some (.text t) => .ok { output := some t }
  | some (.image d) => .ok { base64Image := some d }
  | some (.other tag) => .error ("Unsupported content type: " ++ tag)

/-- The session scan of `MCPClient.call_tool`: the first session whose
`list_tools()` reports the name handles the call; if none does, a
`ValueError` is raised. -/
def mcpCallToolGo (name : String) (input : List (String × String)) :
    List Session → Except String ToolResultV
  | [] => .error ("Tool " ++ name ++ " not found in any active session.")
  | s :: rest =>
    if name ∈ s.toolNames then resultOfFirstItem (s.respond name input).head?
    else mcpCallToolGo name input rest

/-- `MCPClient.call_tool(name, tool_input)`: with no connected sessions a
`RuntimeError` is raised; otherwise the sessions are scanned in order. -/
def mcpCallTool (sessions : List Session) (name : String)
    (input : List (String × String)) : Except String ToolResultV :=
  if sessions.isEmpty then
    .error "RuntimeError: No active sessions. Please connect to a server first."
  else mcpCallToolGo name input sessions

/-- The dispatch decision of the sampling loop's tool-use branch:
a name in `tool_collection.tool_map` runs locally (the local runner is a
black-box collaborator), otherwise the call is forwarded to
`MCPClient.call_tool`. -/
def dispatchTool (localNames : List String)
    (localRun : String → List (String × String) → Except String ToolResultV)
    (sessions : List Session) (name : String)
    (input : List (String × String)) : Except String ToolResultV :=
  if name ∈ localNames then localRun name input
  else mcpCallTool sessions name input

/-- `_maybe_prepend_system_tool_result(result, result_text)`. -/
def maybePrependSystemToolResult (r : ToolResultV) (resultText : String) : String :=
  match r.system with
  | some sys => "<system>" ++ sys ++ "</system>\n" ++ resultText
  | none => resultText

/-- Python truthiness of an optional string field (`None` and `""` are
falsy). -/
def pyTruthy : Option String → Bool
  | none => false
  | some s => s ≠ ""

/-- `_make_api_tool_result(result, tool_use_id)`: an error result becomes
a `tool_result` block with string content and `is_error=True`; otherwise
the content is the list of a text item (when output is set) followed by
an image item (when the image payload is set). -/
def makeApiToolResult (r : ToolResultV) (toolUseId : String) : Block :=
  if pyTruthy r.error then
    .toolResult toolUseId (.str (maybePrependSystemToolResult r (r.error.getD ""))) true false
  else
    .toolResult toolUseId
      (.items
        ((if pyTruthy r.output then
            [TRItem.nonImage "text" (maybePrependSystemToolResult r (r.output.getD ""))]
          else []) ++
         (if pyTruthy r.base64Image then
            [TRItem.image (r.base64Image.getD "")]
          else [])))
      false false

/-- Observable callback invocations made by the loop. -/
inductive Event where
  | apiCallback (req : Nat) (respOrBody : Nat) (isError : Bool)
  | outputCb (b : Block)
  | toolOutputCb (r : ToolResultV) (toolUseId : String)
deriving DecidableEq, Repr

/-- The per-block loop over the parsed assistant content: every block is
passed to the output callback; each `tool_use` block is dispatched, its
result converted by `_make_api_tool_result` and reported to the
tool-output callback.  A dispatch exception aborts the scan, and the
events emitted before the failure are kept. -/
def runToolUses
    (dispatch : String → List (String × String) → Except String ToolResultV) :
    List Block → List Event × Except String (List Block)
  | [] => ([], .ok [])
  | b :: rest =>
    match b with
    | .toolUse id name input _ =>
      (match dispatch name input with
       | .error e => ([Event.outputCb b], .error e)
       | .ok r =>
         ((Event.outputCb b :: Event.toolOutputCb r id :: (runToolUses dispatch rest).1),
          (runToolUses dispatch rest).2.map (fun trs => makeApiToolResult r id :: trs)))
    | _ =>
      ((Event.outputCb b :: (runToolUses dispatch rest).1),
        (runToolUses dispatch rest).2)

/-- The API providers of the loop. -/
inductive APIProvider where
  | anthropic
  | bedrock
  | vertex
deriving DecidableEq, Repr

/-- The system prompt block sent with each request; `cache` models the
presence of the `"cache_control"` key set when prompt caching is active. -/
structure SysBlock where
  text : String
  cache : Bool
deriving DecidableEq, Repr

/-- Python truthiness of `only_n_most_recent_images` (`None` and `0` are
falsy). -/
def truthyOpt : Option Int → Bool
  | none => false
  | some n => n ≠ 0

/-- The per-iteration phase of the loop body preceding the provider call:
with the Anthropic provider, prompt caching is enabled — cache hints are
injected, `only_n_most_recent_images` is overridden to `0` and the system
block gets a cache marker — after which the (now falsy) image limit skips
pruning.  With any other provider no hints are injected; pruning runs iff
the configured limit is truthy, with
`min_removal_threshold = only_n_most_recent_images or 0` computed from
the incoming value.  The returned tuple is
(messages, system block, image limit, whether pruning ran). -/
def preCallPhase (provider : APIProvider) (onims : Option Int)
    (messages : List Message) (sys : SysBlock) :
    Except String (List Message × SysBlock × Option Int × Bool) :=
  let threshold : Int := onims.getD 0
  if provider = .anthropic then
    (injectPromptCaching messages).map
      (fun msgs0 => (msgs0, { sys with cache := true }, some 0, false))
  else
    if truthyOpt onims then
      (maybeFilterToNMostRecentImages messages onims threshold).map
        (fun msgs0 => (msgs0, sys, onims, true))
    else
      .ok (messages, sys, onims, false)

/-- One scripted outcome of `client.beta.messages.with_raw_response.create`:
a parsed success, an `APIStatusError`/`APIResponseValidationError`
(observer gets `e.request, e.response, e`) or a bare `APIError`
(observer gets `e.request, e.body, e`). -/
inductive ProviderOutcome where
  | success (blocks : List Block) (req : Nat) (resp : Nat)
  | statusError (req : Nat) (resp : Nat)
  | apiError (req : Nat) (body : Nat)
deriving DecidableEq, Repr

/-- The API-response observer invocation each outcome produces. -/
def outcomeCallback : ProviderOutcome → Event
  | .success _ req resp => .apiCallback req resp false
  | .statusError req resp => .apiCallback req resp true
  | .apiError req body => .apiCallback req body true

/-- Result of running the loop: the transcript, the callback invocations
in order, an escaped exception if one propagated, and the number of
provider calls issued. -/
structure LoopResult where
  messages : List Message
  events : List Event
  exn : Option String
  attempts : Nat
deriving Repr

/-- The `while not is_timeout()` loop of `sampling_loop`, driven by a
finite script of provider outcomes (an exhausted script stops the loop).
Each iteration checks the timeout predicate, runs the pre-call phase
(caching / image pruning), issues the provider call, fires the observer
exactly once, appends the assistant turn, dispatches the tool uses and —
when at least one tool result was produced — appends them as one user
turn and continues; with no tool results the transcript is returned.
Dispatch exceptions escape the loop (`exn`), as do pre-call exceptions. -/
def loopGo (dispatch : String → List (String × String) → Except String ToolResultV)
    (isTimeout : Nat → Bool) (provider : APIProvider) :
    Nat → List ProviderOutcome → Option Int → SysBlock → List Message → LoopResult
  | n, [], onims, sys, messages =>
    if isTimeout n then ⟨messages, [], none, 0⟩
    else
      match preCallPhase provider onims messages sys with
      | .error e => ⟨messages, [], some e, 0⟩
      | .ok (msgs0, _, _, _) => ⟨msgs0, [], none, 0⟩
  | n, outcome :: rest, onims, sys, messages =>
    if isTimeout n then ⟨messages, [], none, 0⟩
    else
      match preCallPhase provider onims messages sys with
      | .error e => ⟨messages, [], some e, 0⟩
      | .ok (msgs0, sys0, onims0, _) =>
        match outcome with
        | .statusError rq rs => ⟨msgs0, [.apiCallback rq rs true], none, 1⟩
        | .apiError rq bd => ⟨msgs0, [.apiCallback rq bd true], none, 1⟩
        | .success blocks rq rs =>
          let msgs1 := msgs0 ++ [⟨.assistant, .blocks blocks⟩]
          let pr := runToolUses dispatch blocks
          let evs1 := Event.apiCallback rq rs false :: pr.1
          match pr.2 with
          | .error e => ⟨msgs1, evs1, some e, 1⟩
          | .ok [] => ⟨msgs1, evs1, none, 1⟩
          | .ok trs =>
            let r := loopGo dispatch isTimeout provider (n + 1) rest onims0 sys0
              (msgs1 ++ [⟨.user, .blocks trs⟩])
            ⟨r.messages, evs1 ++ r.events, r.exn, r.attempts + 1⟩

/-- The evaluator's configuration dictionary, with the two keys the loop
reads (`mcp_servers`, `exec_mode`). -/
structure EvalConfig where
  mcpServers : List String
  execMode : String
deriving DecidableEq, Repr

/-- The optional event-recording collaborator.  Modelled from the spec:
`BaseEvaluator` lives in the external `evaluator` package, outside the
provided sources; the loop only reads its `config` attribute and calls
`record_event`, so here it is a carrier of the configuration. -/
structure Evaluator where
  config : EvalConfig
deriving DecidableEq, Repr

/-- The unconditional configuration reads at loop entry
(`evaluator.config.get("mcp_servers", [])` and
`evaluator.config.get("exec_mode", "mixed")`): with `evaluator = None`
the attribute access raises `AttributeError`. -/
def samplingLoopConfigAccess : Option Evaluator → Except String (List String × String)
  | none => .error "AttributeError: 'NoneType' object has no attribute 'config'"
  | some ev => .ok (ev.config.mcpServers, ev.config.execMode)

/-- An event handed to `evaluator.record_event`. -/
structure EvEvent where
  kind : String
  toolName : String
  success : Option Bool
  error : Option String
  result : Option String
deriving DecidableEq, Repr

/-- `_record_tool_call_start`: records iff
`evaluator and task_id and AgentEvent` is truthy (an empty task id is
falsy); absent collaborator records nothing. -/
def recordToolCallStart (evaluator : Option Evaluator) (taskId : Option String)
    (toolName : String) : List EvEvent :=
  match evaluator, taskId with
  | some _, some tid =>
    if tid ≠ "" then [⟨"TOOL_CALL_START", toolName, none, none, none⟩] else []
  | _, _ => []

/-- `_record_tool_call_end`: same guard; success is the falsiness of the
error field, the reported result is the (possibly truncated) output, the
screenshot marker, or the error text. -/
def recordToolCallEnd (evaluator : Option Evaluator) (taskId : Option String)
    (toolName : String) (r : ToolResultV) : List EvEvent :=
  match evaluator, taskId with
  | some _, some tid =>
    if tid ≠ "" then
      let success := !pyTruthy r.error
      let res : Option String :=
        if success then
          if pyTruthy r.output then
            let s := r.output.getD ""
            some (if s.length > 1000 then s.take 500 ++ "... (truncated)" else s)
          else if pyTruthy r.base64Image then some "[Screenshot Taken]"
          else none
        else r.error
      [⟨"TOOL_CALL_END", toolName, some success, r.error, res⟩]
    else []
  | _, _ => []

/-! ### Lemmas about the image-pruning pass -/

theorem pruneItems_nonpos (l : List TRItem) : ∀ k : Int, k ≤ 0 →
    pruneItems k l = (l, k) := by
  induction l with
  | nil => intro k _; rfl
  | cons i rest ih =>
    intro k hk
    have hcond : ¬ (isImageItem i ∧ 0 < k) := by
      rintro ⟨-, h⟩; omega
    simp [pruneItems, hcond, ih k hk]

theorem pruneItems_spec (l : List TRItem) : ∀ k : Int,
    (pruneItems k l).2 = k - min (max k 0) (l.countP isImageItem : Int) ∧
    (pruneItems k l).1.filter (fun i => !isImageItem i) =
      l.filter (fun i => !isImageItem i) ∧
    (pruneItems k l).1.filter isImageItem =
      (l.filter isImageItem).drop (min (max k 0) (l.countP isImageItem : Int)).toNat := by
  induction l with
  | nil => intro k; simp [pruneItems]
  | cons i rest ih =>
    intro k
    obtain ⟨ih1, ih2, ih3⟩ := ih k
    by_cases him : isImageItem i = true
    · have hfneg : (i :: rest).filter (fun i => !isImageItem i) =
          rest.filter (fun i => !isImageItem i) :=
        List.filter_cons_of_neg (by simp [him])
      have hfpos : (i :: rest).filter isImageItem = i :: rest.filter isImageItem :=
        List.filter_cons_of_pos him
      have hcnt : ((i :: rest).countP isImageItem : Int) =
          (rest.countP isImageItem : Int) + 1 := by
        rw [List.countP_cons_of_pos _ _ him]; push_cast; ring
      by_cases hk : 0 < k
      · obtain ⟨jh1, jh2, jh3⟩ := ih (k - 1)
        have hcond : (isImageItem i ∧ 0 < k) := ⟨him, hk⟩
        refine ⟨?_, ?_, ?_⟩
        · simp only [pruneItems, if_pos hcond, jh1, hcnt]; omega
        · simp only [pruneItems, if_pos hcond, jh2, hfneg]
        · simp only [pruneItems, if_pos hcond, jh3, hfpos, hcnt]
          have hn : (min (max k 0) ((rest.countP isImageItem : Int) + 1)).toNat =
              (min (max (k - 1) 0) (rest.countP isImageItem : Int)).toNat + 1 := by
            omega
          rw [hn, List.drop_succ_cons]
      · have hcond : ¬ (isImageItem i ∧ 0 < k) := by rintro ⟨-, h⟩; exact hk h
        refine ⟨?_, ?_, ?_⟩
        · simp only [pruneItems, if_neg hcond, ih1, hcnt]; omega
        · have h1 : (i :: (pruneItems k rest).1).filter (fun i => !isImageItem i) =
              (pruneItems k rest).1.filter (fun i => !isImageItem i) :=
            List.filter_cons_of_neg (by simp [him])
          simp only [pruneItems, if_neg hcond, h1, ih2, hfneg]
        · simp only [pruneItems, if_neg hcond, hfpos, hcnt,
            List.filter_cons_of_pos him, ih3]
          have hn : (min (max k 0) ((rest.countP isImageItem : Int) + 1)).toNat = 0 := by
            omega
          have hn' : (min (max k 0) (rest.countP isImageItem : Int)).toNat = 0 := by
            omega
          rw [hn, hn', List.drop_zero, List.drop_zero]
    · have hcond : ¬ (isImageItem i ∧ 0 < k) := by rintro ⟨h, -⟩; exact him h
      have hfpos : (i :: rest).filter (fun i => !isImageItem i) =
          i :: rest.filter (fun i => !isImageItem i) :=
        List.filter_cons_of_pos (by simp [him])
      have hfneg : (i :: rest).filter isImageItem = rest.filter isImageItem :=
        List.filter_cons_of_neg him
      have hcnt : (i :: rest).countP isImageItem = rest.countP isImageItem :=
        List.countP_cons_of_neg _ _ him
      have hgpos : (i :: (pruneItems k rest).1).filter (fun i => !isImageItem i) =
          i :: (pruneItems k rest).1.filter (fun i => !isImageItem i) :=
        List.filter_cons_of_pos (by simp [him])
      have hgneg : (i :: (pruneItems k rest).1).filter isImageItem =
          (pruneItems k rest).1.filter isImageItem :=
        List.filter_cons_of_neg him
      refine ⟨?_, ?_, ?_⟩
      · simp only [pruneItems, if_neg hcond, ih1, hcnt]
      · simp only [pruneItems, if_neg hcond, hgpos, hfpos, ih2]
      · simp only [pruneItems, if_neg hcond, hgneg, hfneg, ih3, hcnt]

theorem pruneItems_append (a b : List TRItem) : ∀ k : Int,
    pruneItems k (a ++ b) =
      ((pruneItems k a).1 ++ (pruneItems (pruneItems k a).2 b).1,
        (pruneItems (pruneItems k a).2 b).2) := by
  induction a with
  | nil => intro k; simp [pruneItems]
  | cons i rest ih =>
    intro k
    by_cases hcond : (isImageItem i ∧ 0 < k)
    · simp only [List.cons_append, pruneItems, if_pos hcond]
      exact ih (k - 1)
    · simp only [List.cons_append, pruneItems, if_neg hcond]
      rw [show rest.append b = rest ++ b from rfl, ih k]

/-- The tool-result items of a block list, flattened in order. -/
def flatB (bs : List Block) : List TRItem :=
  bs.flatMap trContentOfBlock

theorem pruneBlocks_flat (bs : List Block) : ∀ k : Int,
    flatB (pruneBlocks k bs).1 = (pruneItems k (flatB bs)).1 ∧
    (pruneBlocks k bs).2 = (pruneItems k (flatB bs)).2 := by
  induction bs with
  | nil => intro k; simp [pruneBlocks, flatB, pruneItems]
  | cons b rest ih =>
    intro k
    match b with
    | .toolResult id (.items l) e c =>
      obtain ⟨jh1, jh2⟩ := ih (pruneItems k l).2
      have happ := pruneItems_append l (flatB rest) k
      have h1 : flatB ((Block.toolResult id (.items l) e c) :: rest) =
          l ++ flatB rest := by simp [flatB, trContentOfBlock]
      have h2 : ∀ l' : List TRItem, ∀ bs' : List Block,
          flatB ((Block.toolResult id (.items l') e c) :: bs') = l' ++ flatB bs' := by
        intro l' bs'; simp [flatB, trContentOfBlock]
      constructor
      · simp only [pruneBlocks, pruneBlock, h1, h2, happ, jh1]
      · simp only [pruneBlocks, pruneBlock, h1, happ, jh2]
    | .toolResult id (.str s) e c =>
      obtain ⟨jh1, jh2⟩ := ih k
      have h1 : flatB ((Block.toolResult id (.str s) e c) :: rest) = flatB rest := by
        simp [flatB, trContentOfBlock]
      have h2 : ∀ bs' : List Block,
          flatB ((Block.toolResult id (.str s) e c) :: bs') = flatB bs' := by
        intro bs'; simp [flatB, trContentOfBlock]
      refine ⟨?_, ?_⟩ <;>
        simp only [pruneBlocks, pruneBlock, h1, h2, jh1, jh2]
    | .text s c =>
      obtain ⟨jh1, jh2⟩ := ih k
      have h2 : ∀ bs' : List Block, flatB ((Block.text s c) :: bs') = flatB bs' := by
        intro bs'; simp [flatB, trContentOfBlock]
      refine ⟨?_, ?_⟩ <;> simp only [pruneBlocks, pruneBlock, h2, jh1, jh2]
    | .thinking s sig c =>
      obtain ⟨jh1, jh2⟩ := ih k
      have h2 : ∀ bs' : List Block,
          flatB ((Block.thinking s sig c) :: bs') = flatB bs' := by
        intro bs'; simp [flatB, trContentOfBlock]
      refine ⟨?_, ?_⟩ <;> simp only [pruneBlocks, pruneBlock, h2, jh1, jh2]
    | .toolUse id n inp c =>
      obtain ⟨jh1, jh2⟩ := ih k
      have h2 : ∀ bs' : List Block,
          flatB ((Block.toolUse id n inp c) :: bs') = flatB bs' := by
        intro bs'; simp [flatB, trContentOfBlock]
      refine ⟨?_, ?_⟩ <;> simp only [pruneBlocks, pruneBlock, h2, jh1, jh2]

theorem pruneMsgs_flat (msgs : List Message) : ∀ k : Int,
    flatTR (pruneMsgs k msgs).1 = (pruneItems k (flatTR msgs)).1 ∧
    (pruneMsgs k msgs).2 = (pruneItems k (flatTR msgs)).2 := by
  induction msgs with
  | nil => intro k; simp [pruneMsgs, flatTR, pruneItems]
  | cons m rest ih =>
    intro k
    match m with
    | ⟨role, .blocks bs⟩ =>
      obtain ⟨bh1, bh2⟩ := pruneBlocks_flat bs k
      obtain ⟨jh1, jh2⟩ := ih (pruneBlocks k bs).2
      have hflat : ∀ (bs' : List Block) (rest' : List Message),
          flatTR (⟨role, .blocks bs'⟩ :: rest') = flatB bs' ++ flatTR rest' := by
        intro bs' rest'; simp [flatTR, flatB]
      have happ := pruneItems_append (flatB bs) (flatTR rest) k
      rw [bh2] at jh1 jh2
      constructor
      · simp only [pruneMsgs, pruneMsg, hflat, happ, bh2, jh1, bh1]
      · simp only [pruneMsgs, pruneMsg, hflat, happ, bh2, jh2]
    | ⟨role, .str s⟩ =>
      obtain ⟨jh1, jh2⟩ := ih k
      have hflat : ∀ rest' : List Message,
          flatTR (⟨role, .str s⟩ :: rest') = flatTR rest' := by
        intro rest'; simp [flatTR]
      constructor
      · simp only [pruneMsgs, pruneMsg, hflat, jh1]
      · simp only [pruneMsgs, pruneMsg, hflat, jh2]

theorem pruneMsgs_strip (msgs : List Message) : ∀ k : Int,
    stripMsgs (pruneMsgs k msgs).1 = stripMsgs msgs := by
  have hblocks : ∀ (bs : List Block) (k : Int),
      (pruneBlocks k bs).1.map stripBlock = bs.map stripBlock := by
    intro bs
    induction bs with
    | nil => intro k; rfl
    | cons b rest ih =>
      intro k
      match b with
      | .toolResult id (.items l) e c =>
        obtain ⟨-, h2, -⟩ := pruneItems_spec l k
        simp only [pruneBlocks, pruneBlock, List.map_cons, ih, List.cons.injEq,
          and_true]
        simp [stripBlock, stripItems, h2]
      | .toolResult id (.str s) e c => simp [pruneBlocks, pruneBlock, ih]
      | .text s c => simp [pruneBlocks, pruneBlock, ih]
      | .thinking s sig c => simp [pruneBlocks, pruneBlock, ih]
      | .toolUse id n inp c => simp [pruneBlocks, pruneBlock, ih]
  induction msgs with
  | nil => intro k; rfl
  | cons m rest ih =>
    intro k
    match m with
    | ⟨role, .blocks bs⟩ =>
      simp only [pruneMsgs, pruneMsg, stripMsgs, List.map_cons, stripMsg, hblocks]
      exact congrArg _ (ih _)
    | ⟨role, .str s⟩ =>
      simp only [pruneMsgs, pruneMsg, stripMsgs, List.map_cons]
      exact congrArg _ (ih _)

theorem totalImages_eq_flat (msgs : List Message) :
    totalImages msgs = (flatTR msgs).countP isImageItem := by
  have hblocks : ∀ bs : List Block,
      (bs.map countImagesBlock).sum = (flatB bs).countP isImageItem := by
    intro bs
    induction bs with
    | nil => rfl
    | cons b rest ih =>
      simp only [List.map_cons, List.sum_cons, flatB, List.flatMap_cons,
        List.countP_append, countImagesBlock]
      exact congrArg _ ih
  induction msgs with
  | nil => rfl
  | cons m rest ih =>
    match m with
    | ⟨role, .blocks bs⟩ =>
      have hb : (bs.map countImagesBlock).sum = (flatB bs).countP isImageItem :=
        hblocks bs
      simp only [totalImages, List.map_cons, List.sum_cons, countImagesMsg, flatTR,
        List.flatMap_cons, List.countP_append, hb, flatB]
      exact congrArg _ ih
    | ⟨role, .str s⟩ =>
      simp only [totalImages, List.map_cons, List.sum_cons, countImagesMsg, flatTR,
        List.flatMap_cons, List.countP_append, List.countP_nil, Nat.zero_add]
      exact ih

theorem pruneBlocks_nonpos (bs : List Block) : ∀ k : Int, k ≤ 0 →
    pruneBlocks k bs = (bs, k) := by
  induction bs with
  | nil => intro k _; rfl
  | cons b rest ih =>
    intro k hk
    match b with
    | .toolResult id (.items l) e c =>
      simp only [pruneBlocks, pruneBlock, pruneItems_nonpos l k hk, ih k hk]
    | .toolResult id (.str s) e c => simp only [pruneBlocks, pruneBlock, ih k hk]
    | .text s c => simp only [pruneBlocks, pruneBlock, ih k hk]
    | .thinking s sig c => simp only [pruneBlocks, pruneBlock, ih k hk]
    | .toolUse id n inp c => simp only [pruneBlocks, pruneBlock, ih k hk]

theorem pruneMsgs_nonpos (msgs : List Message) : ∀ k : Int, k ≤ 0 →
    pruneMsgs k msgs = (msgs, k) := by
  induction msgs with
  | nil => intro k _; rfl
  | cons m rest ih =>
    intro k hk
    match m with
    | ⟨role, .blocks bs⟩ =>
      simp only [pruneMsgs, pruneMsg, pruneBlocks_nonpos bs k hk, ih k hk]
    | ⟨role, .str s⟩ => simp only [pruneMsgs, pruneMsg, ih k hk]

/-- The exact number of images the spec says `prune_images` removes:
`max(0, total - keep_n)` rounded down to the nearest multiple of
`min_chunk`. -/
def specExcess (total keepN minChunk : Int) : Int :=
  max 0 (total - keepN) - Int.fmod (max 0 (total - keepN)) minChunk

/-- **C3** — For every transcript and every `keep_n > 0`, `min_chunk > 0`,
`prune_images` removes exactly `excess = max(0, total - keep_n)` rounded
down to the nearest multiple of `min_chunk` images; it removes them
oldest-first in transcript order from within `ToolResult` content
sequences (the surviving images are exactly the images of the transcript
with the first `excess` dropped); it never removes a non-image content
item and preserves all non-image items — indeed the whole transcript
with its images erased — unchanged. -/
theorem c3_prune_images_exact (msgs : List Message) (keepN minChunk : Int)
    (hk : 0 < keepN) (hm : 0 < minChunk) :
    ∃ msgs', maybeFilterToNMostRecentImages msgs (some keepN) minChunk = .ok msgs' ∧
      (totalImages msgs' : Int) =
        (totalImages msgs : Int) - specExcess (totalImages msgs) keepN minChunk ∧
      stripMsgs msgs' = stripMsgs msgs ∧
      flatImages msgs' = (flatImages msgs).drop
        (specExcess (totalImages msgs) keepN minChunk).toNat := by
  have hm0 : minChunk ≠ 0 := ne_of_gt hm
  set t : Int := (totalImages msgs : Int) with ht
  set x : Int := t - keepN with hx
  have hfe : Int.fmod x minChunk = x % minChunk := Int.fmod_eq_emod _ (le_of_lt hm)
  have hnn : 0 ≤ x % minChunk := Int.emod_nonneg _ hm0
  set itr : Int := x - Int.fmod x minChunk with hitr
  set e : Int := specExcess t keepN minChunk with he
  have hF : ((flatTR msgs).countP isImageItem : Int) = t := by
    rw [ht, totalImages_eq_flat]
  -- the key numeric facts, by cases on the sign of `total - keep_n`
  have hkey : (min (max itr 0) t).toNat = e.toNat ∧ 0 ≤ e ∧ e ≤ t := by
    rcases le_or_lt 0 x with hx0 | hx0
    · have hmax : max (0 : Int) x = x := max_eq_right hx0
      have hee : e = itr := by
        rw [he, specExcess, ← hx, hmax, hitr]
      have hdiv : 0 ≤ x / minChunk := Int.ediv_nonneg hx0 (le_of_lt hm)
      have h1 : x % minChunk + minChunk * (x / minChunk) = x := Int.emod_add_ediv x minChunk
      have h2 : 0 ≤ minChunk * (x / minChunk) := mul_nonneg (le_of_lt hm) hdiv
      have hitrnn : 0 ≤ itr := by rw [hitr, hfe]; linarith
      have hitrle : itr ≤ x := by rw [hitr, hfe]; linarith
      have hxt : x < t := by rw [hx]; linarith
      refine ⟨?_, ?_, ?_⟩
      · rw [hee]; congr 1; omega
      · rw [hee]; exact hitrnn
      · rw [hee]; linarith
    · have hmax : max (0 : Int) x = 0 := max_eq_left (le_of_lt hx0)
      have hee : e = 0 := by
        rw [he, specExcess, ← hx, hmax, Int.zero_fmod, sub_zero]
      have hitrneg : itr < 0 := by rw [hitr, hfe]; linarith
      have htnn : 0 ≤ t := by rw [ht]; positivity
      refine ⟨?_, ?_, ?_⟩
      · rw [hee]; omega
      · rw [hee]
      · rw [hee]; exact htnn
  obtain ⟨hN, he0, het⟩ := hkey
  obtain ⟨hi1, hi2, hi3⟩ := pruneItems_spec (flatTR msgs) itr
  have hmflat := (pruneMsgs_flat msgs itr).1
  refine ⟨(pruneMsgs itr msgs).1, ?_, ?_, ?_, ?_⟩
  · simp only [maybeFilterToNMostRecentImages, if_neg hm0, ← ht, ← hx, ← hitr]
  · -- image count after = total - excess
    have hcount : totalImages (pruneMsgs itr msgs).1 =
        ((flatTR msgs).filter isImageItem).length - e.toNat := by
      rw [totalImages_eq_flat, hmflat, List.countP_eq_length_filter, hi3,
        List.length_drop]
      congr 1
      rw [← hN]
      congr 2
    have hlen : (((flatTR msgs).filter isImageItem).length : Int) = t := by
      rw [← List.countP_eq_length_filter, hF]
    rw [hcount]
    omega
  · exact pruneMsgs_strip msgs itr
  · rw [flatImages, hmflat, hi3, flatImages]
    congr 1
    rw [← hN]
    congr 2

/-- A tool-result turn holding the given nested items. -/
def trTurn (id : String) (items : List TRItem) : Message :=
  ⟨.user, .blocks [.toolResult id (.items items) false false]⟩

/-- The spec's worked scenario: three tool-result turns holding 5, 2 and
4 images (total 11). -/
def scenarioMsgs : List Message :=
  [trTurn "t1" [.image "a0", .image "a1", .image "a2", .image "a3", .image "a4",
                .nonImage "text" "n1"],
   trTurn "t2" [.image "b0", .image "b1"],
   trTurn "t3" [.nonImage "text" "n2", .image "c0", .image "c1", .image "c2",
                .image "c3"]]

/-- **C3 witness** — the scenario with `keep_n = 3`, `min_chunk = 2`:
`excess = 8`, so exactly the 8 oldest images are removed and both
non-image items survive in place. -/
theorem c3_prune_images_exact_witness :
    ∃ msgs', maybeFilterToNMostRecentImages scenarioMsgs (some 3) 2 = .ok msgs' ∧
      (totalImages msgs' : Int) =
        (totalImages scenarioMsgs : Int) - specExcess (totalImages scenarioMsgs) 3 2 ∧
      stripMsgs msgs' = stripMsgs scenarioMsgs ∧
      flatImages msgs' = (flatImages scenarioMsgs).drop
        (specExcess (totalImages scenarioMsgs) 3 2).toNat :=
  c3_prune_images_exact scenarioMsgs 3 2 (by decide) (by decide)

/-- **C9** — once the transcript holds at most `keep_n` images (with
`keep_n > 0`, `min_chunk > 0`), `prune_images` returns the transcript
unchanged, hence applying it twice equals applying it once. -/
theorem c9_prune_images_idempotent (msgs : List Message) (keepN minChunk : Int)
    (_hk : 0 < keepN) (hm : 0 < minChunk)
    (hle : (totalImages msgs : Int) ≤ keepN) :
    maybeFilterToNMostRecentImages msgs (some keepN) minChunk = .ok msgs ∧
    (maybeFilterToNMostRecentImages msgs (some keepN) minChunk).bind
        (fun m => maybeFilterToNMostRecentImages m (some keepN) minChunk) =
      maybeFilterToNMostRecentImages msgs (some keepN) minChunk := by
  have hm0 : minChunk ≠ 0 := ne_of_gt hm
  set x : Int := (totalImages msgs : Int) - keepN with hx
  have hfe : Int.fmod x minChunk = x % minChunk := Int.fmod_eq_emod _ (le_of_lt hm)
  have hnn : 0 ≤ x % minChunk := Int.emod_nonneg _ hm0
  have hneg : x - Int.fmod x minChunk ≤ 0 := by rw [hfe]; omega
  have hok : maybeFilterToNMostRecentImages msgs (some keepN) minChunk = .ok msgs := by
    simp only [maybeFilterToNMostRecentImages, if_neg hm0, ← hx,
      pruneMsgs_nonpos msgs _ hneg]
  exact ⟨hok, by rw [hok, Except.bind, hok]⟩

/-- **C9 witness** -/
theorem c9_prune_images_idempotent_witness :
    maybeFilterToNMostRecentImages
        [⟨.user, .blocks [.toolResult "t1" (.items [.image "a", .nonImage "text" "x"]) false false]⟩]
        (some 2) 2 =
      .ok [⟨.user, .blocks [.toolResult "t1" (.items [.image "a", .nonImage "text" "x"]) false false]⟩] ∧
    (maybeFilterToNMostRecentImages
        [⟨.user, .blocks [.toolResult "t1" (.items [.image "a", .nonImage "text" "x"]) false false]⟩]
        (some 2) 2).bind
        (fun m => maybeFilterToNMostRecentImages m (some 2) 2) =
      maybeFilterToNMostRecentImages
        [⟨.user, .blocks [.toolResult "t1" (.items [.image "a", .nonImage "text" "x"]) false false]⟩]
        (some 2) 2 :=
  c9_prune_images_idempotent _ 2 2 (by decide) (by decide) (by decide)

/-- **C5 counterexample** — at a concrete transcript holding two images
with `keep_n = 1` and `min_chunk = 0`, `prune_images` raises
`ZeroDivisionError` instead of completing normally. -/
theorem c5_counterexample :
    maybeFilterToNMostRecentImages
        [⟨.user, .blocks [.toolResult "t1" (.items [.image "a", .image "b"]) false false]⟩]
        (some 1) 0 =
      .error "ZeroDivisionError: integer modulo by zero" := rfl

/-- **C5 (amended)** — for every transcript and every `keep_n`, calling
`prune_images` with `min_chunk = 0` raises `ZeroDivisionError` (Python
`%` with zero modulus): the operation fails instead of removing
`max(0, total - keep_n)` images, and the transcript is not modified. -/
theorem c5_min_chunk_zero_raises (msgs : List Message) (keepN : Int) :
    maybeFilterToNMostRecentImages msgs (some keepN) 0 =
      .error "ZeroDivisionError: integer modulo by zero" := rfl

/-! ### Cache-hint placement -/

/-- Does a block carry a live cache hint (`"cache_control"` key present)? -/
def blockHinted : Block → Bool
  | .text _ c => c
  | .thinking _ _ c => c
  | .toolUse _ _ _ c => c
  | .toolResult _ _ _ c => c

/-- Does some content item of the turn carry a live cache hint? -/
def turnHasHint : Message → Bool
  | ⟨_, .blocks bs⟩ => bs.any blockHinted
  | _ => false

/-- Does the turn's last content item carry a live cache hint? -/
def lastHinted : Message → Bool
  | ⟨_, .blocks bs⟩ => (bs.getLast?.map blockHinted).getD false
  | _ => false

/-- Does a content item other than the last carry a live cache hint? -/
def nonLastHinted : Message → Bool
  | ⟨_, .blocks bs⟩ => bs.dropLast.any blockHinted
  | _ => false

/-- A qualifying turn: a user turn whose content is block-structured. -/
def isQualifying : Message → Bool
  | ⟨.user, .blocks _⟩ => true
  | _ => false

/-- Block-structured content is nonempty (string content vacuously so). -/
def hasContent : Message → Bool
  | ⟨_, .blocks bs⟩ => !bs.isEmpty
  | _ => true

/-- Number of turns carrying a live cache hint. -/
def hintedTurnCount (msgs : List Message) : Nat :=
  msgs.countP turnHasHint

theorem blockHinted_setBlockCache (v : Bool) (b : Block) :
    blockHinted (setBlockCache v b) = v := by
  cases b <;> rfl

theorem setLastCache_concat (v : Bool) : ∀ (bs : List Block) (b : Block),
    setLastCache v (bs ++ [b]) = bs ++ [setBlockCache v b] := by
  intro bs
  induction bs with
  | nil => intro b; rfl
  | cons a rest ih =>
    intro b
    cases rest with
    | nil => rfl
    | cons a2 r2 =>
      have h := ih b
      simp only [List.cons_append] at h ⊢
      show a :: setLastCache v (a2 :: (r2 ++ [b])) = a :: (a2 :: (r2 ++ [setBlockCache v b]))
      rw [h]

theorem hint_free_parts (m : Message) (h : turnHasHint m = false) :
    lastHinted m = false ∧ nonLastHinted m = false := by
  match m with
  | ⟨role, .str s⟩ => exact ⟨rfl, rfl⟩
  | ⟨role, .blocks bs⟩ =>
    have hall : ∀ b ∈ bs, ¬ blockHinted b = true := by
      simpa [turnHasHint, List.any_eq_false] using h
    constructor
    · simp only [lastHinted]
      cases hlast : bs.getLast? with
      | none => rfl
      | some b =>
        have hb : b ∈ bs := List.mem_of_mem_getLast? (by rw [hlast]; rfl)
        simp [hall b hb]
    · simp only [nonLastHinted, List.any_eq_false]
      intro b hb
      exact hall b (List.dropLast_subset bs hb)

theorem countP_zero_of_clean (l : List Message)
    (h : ∀ m ∈ l, turnHasHint m = false) :
    l.countP turnHasHint = 0 :=
  List.countP_eq_zero.mpr (fun m hm => by simp [h m hm])

/-- Full characterisation of one reverse scan of `_inject_prompt_caching`
over a hint-free transcript tail (given in reverse chronological order)
whose qualifying turns are nonempty: the scan succeeds, preserves length,
hints exactly the qualifying turns preceded (in scan order) by fewer than
`bp` qualifying turns — always on the last content item, never elsewhere —
and leaves `min bp (#qualifying)` hinted turns. -/
theorem injectAux_spec : ∀ (l : List Message) (bp : Nat),
    (∀ m ∈ l, turnHasHint m = false) →
    (∀ m ∈ l, isQualifying m = true → hasContent m = true) →
    ∃ r, injectAux bp l = .ok r ∧
      r.length = l.length ∧
      r.countP turnHasHint = min bp (l.countP isQualifying) ∧
      ∀ i (h : i < r.length) (h' : i < l.length),
        turnHasHint r[i] =
          (isQualifying l[i] && decide ((l.take i).countP isQualifying < bp)) ∧
        lastHinted r[i] =
          (isQualifying l[i] && decide ((l.take i).countP isQualifying < bp)) ∧
        nonLastHinted r[i] = false := by
  intro l
  induction l with
  | nil =>
    intro bp _ _
    exact ⟨[], rfl, rfl, by simp, fun i h => absurd h (by simp)⟩
  | cons m rest ih =>
    intro bp hclean hne
    have hcleanr : ∀ m' ∈ rest, turnHasHint m' = false :=
      fun m' hm' => hclean m' (List.mem_cons_of_mem _ hm')
    have hner : ∀ m' ∈ rest, isQualifying m' = true → hasContent m' = true :=
      fun m' hm' => hne m' (List.mem_cons_of_mem _ hm')
    have hcleanm : turnHasHint m = false := hclean m (List.mem_cons_self _ _)
    match m with
    | ⟨.user, .blocks bs⟩ =>
      have hq : isQualifying (⟨.user, .blocks bs⟩ : Message) = true := rfl
      have hbs : bs ≠ [] := by
        have := hne _ (List.mem_cons_self _ _) hq
        simpa [hasContent] using this
      obtain hnil | ⟨bs', b, hcat⟩ := List.eq_nil_or_concat bs
      · exact absurd hnil hbs
      rw [List.concat_eq_append] at hcat
      subst hcat
      have hclean' : bs'.any blockHinted = false ∧ blockHinted b = false := by
        have : (bs' ++ [b]).any blockHinted = false := by
          simpa [turnHasHint] using hcleanm
        simpa [List.any_append] using this
      have hempty : (bs' ++ [b]).isEmpty = false := by
        simp [List.isEmpty_iff]
      by_cases hbp : bp = 0
      · -- budget exhausted: strip the hint from this turn and stop
        subst hbp
        refine ⟨⟨.user, .blocks (setLastCache false (bs' ++ [b]))⟩ :: rest, ?_, ?_, ?_, ?_⟩
        · simp [injectAux, hempty]
        · simp
        · have h0 : turnHasHint
              (⟨.user, .blocks (setLastCache false (bs' ++ [b]))⟩ : Message) = false := by
            simp [turnHasHint, setLastCache_concat, List.any_append,
              blockHinted_setBlockCache, hclean'.1]
          rw [List.countP_cons_of_neg _ _ (by simp [h0]), countP_zero_of_clean rest hcleanr]
          simp
        · intro i h h'
          match i with
          | 0 =>
            refine ⟨?_, ?_, ?_⟩
            · simp [turnHasHint, setLastCache_concat, List.any_append,
                blockHinted_setBlockCache, hclean'.1]
            · simp [lastHinted, setLastCache_concat, List.getLast?_concat,
                blockHinted_setBlockCache]
            · simp [nonLastHinted, setLastCache_concat, List.dropLast_concat, hclean'.1]
          | Nat.succ i =>
            have hi : i < rest.length := by simpa using h'
            have hcl : turnHasHint rest[i] = false := hcleanr _ (List.getElem_mem hi)
            obtain ⟨hl, hnl⟩ := hint_free_parts rest[i] hcl
            refine ⟨?_, ?_, ?_⟩
            · simp only [List.getElem_cons_succ, hcl, List.take_succ_cons,
                List.countP_cons_of_pos _ _ hq]
              simp
            · simp only [List.getElem_cons_succ, hl, List.take_succ_cons,
                List.countP_cons_of_pos _ _ hq]
              simp
            · simpa using hnl
      · -- budget remains: hint this turn and recurse with one fewer
        obtain ⟨r', hrw, hlen', hcnt', hidx'⟩ := ih (bp - 1) hcleanr hner
        refine ⟨⟨.user, .blocks (setLastCache true (bs' ++ [b]))⟩ :: r', ?_, ?_, ?_, ?_⟩
        · simp [injectAux, hempty, hbp, hrw, Except.map]
        · simpa using hlen'
        · have h0 : turnHasHint
              (⟨.user, .blocks (setLastCache true (bs' ++ [b]))⟩ : Message) = true := by
            simp [turnHasHint, setLastCache_concat, List.any_append,
              blockHinted_setBlockCache]
          rw [List.countP_cons_of_pos _ _ h0, hcnt',
            List.countP_cons_of_pos _ _ hq]
          omega
        · intro i h h'
          match i with
          | 0 =>
            refine ⟨?_, ?_, ?_⟩
            · simp only [List.getElem_cons_zero, List.take_zero, List.countP_nil]
              simp only [turnHasHint, setLastCache_concat, List.any_append,
                blockHinted_setBlockCache, hclean'.1]
              simp [hq, blockHinted_setBlockCache, Nat.pos_of_ne_zero hbp]
            · simp only [List.getElem_cons_zero, List.take_zero, List.countP_nil]
              simp only [lastHinted, setLastCache_concat, List.getLast?_concat]
              simp [hq, blockHinted_setBlockCache, Nat.pos_of_ne_zero hbp]
            · simp [nonLastHinted, setLastCache_concat, List.dropLast_concat, hclean'.1]
          | Nat.succ i =>
            have hr : i < r'.length := by simpa using h
            have hl : i < rest.length := by simpa using h'
            obtain ⟨j1, j2, j3⟩ := hidx' i hr hl
            have hdec : decide ((rest.take i).countP isQualifying < bp - 1) =
                decide (((rest.take i).countP isQualifying) + 1 < bp) := by
              rcases Nat.lt_or_ge ((rest.take i).countP isQualifying) (bp - 1) with hlt | hge
              · rw [decide_eq_true hlt, decide_eq_true (by omega)]
              · rw [decide_eq_false (by omega), decide_eq_false (by omega)]
            refine ⟨?_, ?_, ?_⟩
            · simp only [List.getElem_cons_succ, j1, List.take_succ_cons,
                List.countP_cons_of_pos _ _ hq, hdec]
            · simp only [List.getElem_cons_succ, j2, List.take_succ_cons,
                List.countP_cons_of_pos _ _ hq, hdec]
            · simpa using j3
    | ⟨.assistant, mc⟩ =>
      have hq : isQualifying (⟨.assistant, mc⟩ : Message) = false := by
        cases mc <;> rfl
      obtain ⟨r', hrw, hlen', hcnt', hidx'⟩ := ih bp hcleanr hner
      have hrun : injectAux bp (⟨.assistant, mc⟩ :: rest) =
          (injectAux bp rest).map (fun r => ⟨.assistant, mc⟩ :: r) := by
        cases mc <;> rfl
      obtain ⟨hlm, hnlm⟩ := hint_free_parts _ hcleanm
      refine ⟨⟨.assistant, mc⟩ :: r', ?_, ?_, ?_, ?_⟩
      · rw [hrun, hrw]; rfl
      · simpa using hlen'
      · rw [List.countP_cons_of_neg _ _ (by simp [hcleanm]), hcnt',
          List.countP_cons_of_neg _ _ (by simp [hq])]
      · intro i h h'
        match i with
        | 0 => exact ⟨by simpa using hcleanm, by simpa [hq] using hlm, by simpa using hnlm⟩
        | Nat.succ i =>
          have hr : i < r'.length := by simpa using h
          have hl : i < rest.length := by simpa using h'
          obtain ⟨j1, j2, j3⟩ := hidx' i hr hl
          have hcp : List.countP isQualifying ((⟨.assistant, mc⟩ : Message) :: rest.take i) =
              List.countP isQualifying (rest.take i) :=
            List.countP_cons_of_neg _ _ (by simp [hq])
          refine ⟨?_, ?_, ?_⟩
          · simp only [List.getElem_cons_succ, j1, List.take_succ_cons, hcp]
          · simp only [List.getElem_cons_succ, j2, List.take_succ_cons, hcp]
          · simpa using j3
    | ⟨.user, .str s⟩ =>
      have hq : isQualifying (⟨.user, .str s⟩ : Message) = false := rfl
      obtain ⟨r', hrw, hlen', hcnt', hidx'⟩ := ih bp hcleanr hner
      obtain ⟨hlm, hnlm⟩ := hint_free_parts _ hcleanm
      refine ⟨⟨.user, .str s⟩ :: r', ?_, ?_, ?_, ?_⟩
      · rw [show injectAux bp ((⟨.user, .str s⟩ : Message) :: rest) =
            (injectAux bp rest).map (fun r => ⟨.user, .str s⟩ :: r) from rfl, hrw]
        rfl
      · simpa using hlen'
      · rw [List.countP_cons_of_neg _ _ (by simp [hcleanm]), hcnt',
          List.countP_cons_of_neg _ _ (by simp [hq])]
      · intro i h h'
        match i with
        | 0 => exact ⟨by simpa using hcleanm, by simpa [hq] using hlm, by simpa using hnlm⟩
        | Nat.succ i =>
          have hr : i < r'.length := by simpa using h
          have hl : i < rest.length := by simpa using h'
          obtain ⟨j1, j2, j3⟩ := hidx' i hr hl
          have hcp : List.countP isQualifying ((⟨.user, .str s⟩ : Message) :: rest.take i) =
              List.countP isQualifying (rest.take i) :=
            List.countP_cons_of_neg _ _ (by simp [hq])
          refine ⟨?_, ?_, ?_⟩
          · simp only [List.getElem_cons_succ, j1, List.take_succ_cons, hcp]
          · simp only [List.getElem_cons_succ, j2, List.take_succ_cons, hcp]
          · simpa using j3

/-- **C4 (amended)** — for a transcript with no pre-existing cache hints
whose block-structured user turns are nonempty, the reverse scan with
budget 3 succeeds and afterwards the turns carrying a live hint are
exactly the `min 3 (#qualifying)` most recent qualifying user turns
(those with fewer than 3 qualifying turns after them), each hinted on its
last content item and nowhere else; in particular at most 3 turns carry a
live hint.  (On arbitrary transcripts the bound fails: the scan strips
only the fourth most recent qualifying turn and stops, so hints older
than that survive — see the counterexample.) -/
theorem c4_place_cache_hints (msgs : List Message)
    (hclean : ∀ m ∈ msgs, turnHasHint m = false)
    (hne : ∀ m ∈ msgs, isQualifying m = true → hasContent m = true) :
    ∃ r, injectPromptCaching msgs = .ok r ∧
      r.length = msgs.length ∧
      hintedTurnCount r = min 3 (msgs.countP isQualifying) ∧
      hintedTurnCount r ≤ 3 ∧
      ∀ i (h : i < r.length) (h' : i < msgs.length),
        turnHasHint r[i] =
          (isQualifying msgs[i] &&
            decide ((msgs.drop (i + 1)).countP isQualifying < 3)) ∧
        lastHinted r[i] =
          (isQualifying msgs[i] &&
            decide ((msgs.drop (i + 1)).countP isQualifying < 3)) ∧
        nonLastHinted r[i] = false := by
  obtain ⟨rv, hrv, hlen, hcnt, hidx⟩ := injectAux_spec msgs.reverse 3
    (fun m hm => hclean m (List.mem_reverse.mp hm))
    (fun m hm => hne m (List.mem_reverse.mp hm))
  have hlen' : rv.length = msgs.length := by
    rw [hlen, List.length_reverse]
  refine ⟨rv.reverse, ?_, ?_, ?_, ?_, ?_⟩
  · simp [injectPromptCaching, hrv, Except.map]
  · simp [hlen']
  · rw [hintedTurnCount, List.countP_reverse, hcnt, List.countP_reverse]
  · rw [hintedTurnCount, List.countP_reverse, hcnt]
    exact Nat.min_le_left _ _
  · intro i h h'
    have hj : msgs.length - 1 - i < rv.length := by omega
    have hj' : msgs.length - 1 - i < msgs.reverse.length := by
      rw [List.length_reverse]; omega
    obtain ⟨j1, j2, j3⟩ := hidx (msgs.length - 1 - i) hj hj'
    have hrg : rv.reverse[i] = rv[msgs.length - 1 - i] := by
      rw [List.getElem_reverse]
      apply getElem_congr
      omega
    have hmg : (msgs.reverse)[msgs.length - 1 - i] = msgs[i] := by
      rw [List.getElem_reverse]
      apply getElem_congr
      omega
    have hidxeq : msgs.length - (msgs.length - 1 - i) = i + 1 := by omega
    have htake : msgs.reverse.take (msgs.length - 1 - i) =
        (msgs.drop (i + 1)).reverse := by
      rw [List.take_reverse, hidxeq]
    rw [hrg]
    rw [hmg, htake, List.countP_reverse] at j1 j2
    exact ⟨j1, j2, j3⟩

/-- A block-structured user turn already carrying a live cache hint. -/
def preHintedTurn : Message := ⟨.user, .blocks [.text "x" true]⟩

/-- **C4 counterexample** — on a transcript of five block-structured user
turns that each already carry a live hint, the scan hints the three most
recent, strips only the fourth and stops, leaving the pre-existing hint
on the fifth: 4 turns carry a live hint afterwards, contradicting the
claimed bound of at most 3 for every transcript. -/
theorem c4_counterexample :
    (injectPromptCaching
        [preHintedTurn, preHintedTurn, preHintedTurn, preHintedTurn,
         preHintedTurn]).map hintedTurnCount = Except.ok 4 := rfl

/-- A hint-free transcript with four qualifying user turns. -/
def cleanMsgsEx : List Message :=
  [⟨.user, .blocks [.text "u1" false]⟩,
   ⟨.assistant, .blocks [.text "a" false]⟩,
   ⟨.user, .blocks [.text "u2" false, .text "u2b" false]⟩,
   ⟨.user, .str "plain"⟩,
   ⟨.user, .blocks [.text "u3" false]⟩,
   ⟨.user, .blocks [.text "u4" false]⟩]

/-- **C4 witness** -/
theorem c4_place_cache_hints_witness :
    ∃ r, injectPromptCaching cleanMsgsEx = .ok r ∧
      r.length = cleanMsgsEx.length ∧
      hintedTurnCount r = min 3 (cleanMsgsEx.countP isQualifying) ∧
      hintedTurnCount r ≤ 3 ∧
      ∀ i (h : i < r.length) (h' : i < cleanMsgsEx.length),
        turnHasHint r[i] =
          (isQualifying cleanMsgsEx[i] &&
            decide ((cleanMsgsEx.drop (i + 1)).countP isQualifying < 3)) ∧
        lastHinted r[i] =
          (isQualifying cleanMsgsEx[i] &&
            decide ((cleanMsgsEx.drop (i + 1)).countP isQualifying < 3)) ∧
        nonLastHinted r[i] = false :=
  c4_place_cache_hints cleanMsgsEx (by decide) (by decide)

/-! ### Tool dispatch and the loop -/

/-- The first connected session whose reported tool list owns the name. -/
def firstOwner (sessions : List Session) (name : String) : Option Session :=
  sessions.find? (fun s => decide (name ∈ s.toolNames))

theorem mcpCallToolGo_eq_firstOwner (name : String)
    (input : List (String × String)) : ∀ sessions : List Session,
    mcpCallToolGo name input sessions =
      match firstOwner sessions name with
      | none => .error ("Tool " ++ name ++ " not found in any active session.")
      | some s => resultOfFirstItem (s.respond name input).head? := by
  intro sessions
  induction sessions with
  | nil => rfl
  | cons s rest ih =>
    by_cases hmem : name ∈ s.toolNames
    · have hf : List.find? (fun s => decide (name ∈ s.toolNames)) (s :: rest) =
          some s := List.find?_cons_of_pos _ (by simp [hmem])
      simp only [mcpCallToolGo, if_pos hmem, firstOwner, hf]
    · have hf : List.find? (fun s => decide (name ∈ s.toolNames)) (s :: rest) =
          List.find? (fun s => decide (name ∈ s.toolNames)) rest :=
        List.find?_cons_of_neg _ (by simp [hmem])
      simp only [mcpCallToolGo, if_neg hmem, firstOwner, hf, ih]

/-- **C10** — a successful remote call builds its `ToolResult` from only
the first content item of the remote response: with a text or image head
item the result is independent of every later item, and an empty content
list makes the call fail with an out-of-range first-item access instead
of yielding a `ToolResult`. -/
theorem c10_remote_first_item_only (sessions : List Session) (name : String)
    (input : List (String × String)) (s : Session)
    (hne : sessions ≠ [])
    (hown : firstOwner sessions name = some s) :
    (s.respond name input = [] →
      mcpCallTool sessions name input =
        .error "IndexError: list index out of range") ∧
    (∀ t rest, s.respond name input = .text t :: rest →
      mcpCallTool sessions name input = .ok { output := some t }) ∧
    (∀ d rest, s.respond name input = .image d :: rest →
      mcpCallTool sessions name input = .ok { base64Image := some d }) := by
  have hempty : sessions.isEmpty = false := by
    simpa [List.isEmpty_iff] using hne
  have hgo : mcpCallTool sessions name input =
      resultOfFirstItem (s.respond name input).head? := by
    rw [mcpCallTool, if_neg (by simp [hempty]), mcpCallToolGo_eq_firstOwner, hown]
  refine ⟨?_, ?_, ?_⟩
  · intro h0; rw [hgo, h0]; rfl
  · intro t rest h0; rw [hgo, h0]; rfl
  · intro d rest h0; rw [hgo, h0]; rfl

/-- A remote session owning tool `"t"` and answering every call with a
text item followed by further (discarded) items. -/
def sessionEx : Session :=
  ⟨["t"], fun _ _ => [.text "hello", .text "extra", .image "img"]⟩

/-- **C10 witness** -/
theorem c10_remote_first_item_only_witness :
    ([sessionEx].find? (fun s => decide ("t" ∈ s.toolNames)) = some sessionEx) ∧
    ((sessionEx.respond "t" [] = [] →
      mcpCallTool [sessionEx] "t" [] =
        .error "IndexError: list index out of range") ∧
    (∀ t rest, sessionEx.respond "t" [] = .text t :: rest →
      mcpCallTool [sessionEx] "t" [] = .ok { output := some t }) ∧
    (∀ d rest, sessionEx.respond "t" [] = .image d :: rest →
      mcpCallTool [sessionEx] "t" [] = .ok { base64Image := some d })) :=
  ⟨rfl, c10_remote_first_item_only [sessionEx] "t" [] sessionEx (by simp) rfl⟩

theorem mcpCallToolGo_not_found (name : String)
    (input : List (String × String)) : ∀ sessions : List Session,
    (∀ s ∈ sessions, name ∉ s.toolNames) →
    mcpCallToolGo name input sessions =
      .error ("Tool " ++ name ++ " not found in any active session.") := by
  intro sessions
  induction sessions with
  | nil => intro _; rfl
  | cons s rest ih =>
    intro h
    rw [mcpCallToolGo, if_neg (h s (List.mem_cons_self _ _)),
      ih (fun s' hs' => h s' (List.mem_cons_of_mem _ hs'))]

/-- **C1 counterexample** — dispatching a tool-use block whose name is in
neither registry makes the per-block scan abort with the raised
`ValueError`: no error `ToolResult` block is produced. -/
theorem c1_counterexample :
    runToolUses (dispatchTool [] (fun _ _ => .ok {}) [⟨["a"], fun _ _ => []⟩])
        [.toolUse "id1" "nosuch" [] false] =
      ([.outputCb (.toolUse "id1" "nosuch" [] false)],
       .error "Tool nosuch not found in any active session.") := rfl

/-- **C1 (amended)** — dispatch to a name registered in neither the local
collection nor any remote session fails with the unknown-tool
`ValueError` (or the no-active-connection `RuntimeError` when no session
is connected), but the loop does not convert this into an error
`ToolResult`: the exception propagates out of the sampling loop, which
stops with the assistant turn appended and no tool-result turn. -/
theorem c1_unknown_tool_raises (localNames : List String)
    (localRun : String → List (String × String) → Except String ToolResultV)
    (sessions : List Session) (name : String) (input : List (String × String))
    (hlocal : name ∉ localNames)
    (hremote : ∀ s ∈ sessions, name ∉ s.toolNames) :
    dispatchTool localNames localRun sessions name input =
      .error (if sessions.isEmpty
        then "RuntimeError: No active sessions. Please connect to a server first."
        else "Tool " ++ name ++ " not found in any active session.") ∧
    ∀ (isTimeout : Nat → Bool) (provider : APIProvider) (n : Nat)
      (onims : Option Int) (sys : SysBlock) (msgs msgs0 : List Message)
      (sys0 : SysBlock) (onims0 : Option Int) (pr : Bool) (id : String)
      (rq rs : Nat) (rest : List ProviderOutcome),
      isTimeout n = false →
      preCallPhase provider onims msgs sys = .ok (msgs0, sys0, onims0, pr) →
      loopGo (dispatchTool localNames localRun sessions) isTimeout provider n
          (.success [.toolUse id name input false] rq rs :: rest) onims sys msgs =
        ⟨msgs0 ++ [⟨.assistant, .blocks [.toolUse id name input false]⟩],
         [.apiCallback rq rs false, .outputCb (.toolUse id name input false)],
         some (if sessions.isEmpty
           then "RuntimeError: No active sessions. Please connect to a server first."
           else "Tool " ++ name ++ " not found in any active session."), 1⟩ := by
  have hdisp : dispatchTool localNames localRun sessions name input =
      .error (if sessions.isEmpty
        then "RuntimeError: No active sessions. Please connect to a server first."
        else "Tool " ++ name ++ " not found in any active session.") := by
    rw [dispatchTool, if_neg hlocal, mcpCallTool]
    by_cases hl : sessions.isEmpty
    · rw [if_pos hl, if_pos hl]
    · rw [if_neg hl, if_neg hl, mcpCallToolGo_not_found name input sessions hremote]
  refine ⟨hdisp, ?_⟩
  intro isTimeout provider n onims sys msgs msgs0 sys0 onims0 pr id rq rs rest ht hpre
  have hrun : runToolUses (dispatchTool localNames localRun sessions)
      [.toolUse id name input false] =
      ([.outputCb (.toolUse id name input false)],
       .error (if sessions.isEmpty
         then "RuntimeError: No active sessions. Please connect to a server first."
         else "Tool " ++ name ++ " not found in any active session.")) := by
    rw [runToolUses, hdisp]
  rw [loopGo, ht]
  simp only [Bool.false_eq_true, if_false, hpre, hrun]

/-- **C1 witness** -/
theorem c1_unknown_tool_raises_witness :
    ("nosuch" ∉ (["bash"] : List String)) ∧
    (∀ s ∈ ([⟨["a"], fun _ _ => []⟩] : List Session), "nosuch" ∉ s.toolNames) ∧
    (dispatchTool ["bash"] (fun _ _ => .ok {}) [⟨["a"], fun _ _ => []⟩] "nosuch" [] =
      .error (if ([⟨["a"], fun _ _ => []⟩] : List Session).isEmpty
        then "RuntimeError: No active sessions. Please connect to a server first."
        else "Tool " ++ "nosuch" ++ " not found in any active session.") ∧
    ∀ (isTimeout : Nat → Bool) (provider : APIProvider) (n : Nat)
      (onims : Option Int) (sys : SysBlock) (msgs msgs0 : List Message)
      (sys0 : SysBlock) (onims0 : Option Int) (pr : Bool) (id : String)
      (rq rs : Nat) (rest : List ProviderOutcome),
      isTimeout n = false →
      preCallPhase provider onims msgs sys = .ok (msgs0, sys0, onims0, pr) →
      loopGo (dispatchTool ["bash"] (fun _ _ => .ok {}) [⟨["a"], fun _ _ => []⟩])
          isTimeout provider n
          (.success [.toolUse id "nosuch" [] false] rq rs :: rest) onims sys msgs =
        ⟨msgs0 ++ [⟨.assistant, .blocks [.toolUse id "nosuch" [] false]⟩],
         [.apiCallback rq rs false, .outputCb (.toolUse id "nosuch" [] false)],
         some (if ([⟨["a"], fun _ _ => []⟩] : List Session).isEmpty
           then "RuntimeError: No active sessions. Please connect to a server first."
           else "Tool " ++ "nosuch" ++ " not found in any active session."), 1⟩) :=
  ⟨by decide, by intro s hs; simp at hs; subst hs; decide,
   c1_unknown_tool_raises ["bash"] (fun _ _ => .ok {}) [⟨["a"], fun _ _ => []⟩]
     "nosuch" [] (by decide) (by intro s hs; simp at hs; subst hs; decide)⟩

/-- The ids of the `tool_use` blocks of an assistant turn, in order. -/
def toolUseIds (bs : List Block) : List String :=
  bs.filterMap fun b =>
    match b with
    | .toolUse id _ _ _ => some id
    | _ => none

/-- The `tool_use_id` of a `tool_result` block. -/
def toolResultId : Block → Option String
  | .toolResult id _ _ _ => some id
  | _ => none

/-- Is a block a `tool_result` block? -/
def isToolResultBlock : Block → Bool
  | .toolResult _ _ _ _ => true
  | _ => false

theorem makeApiToolResult_id (r : ToolResultV) (id : String) :
    toolResultId (makeApiToolResult r id) = some id ∧
    isToolResultBlock (makeApiToolResult r id) = true := by
  rw [makeApiToolResult]
  split <;> exact ⟨rfl, rfl⟩

theorem runToolUses_ids
    (dispatch : String → List (String × String) → Except String ToolResultV) :
    ∀ (blocks trs : List Block),
    (runToolUses dispatch blocks).2 = .ok trs →
    trs.map toolResultId = (toolUseIds blocks).map some ∧
    ∀ b ∈ trs, isToolResultBlock b = true := by
  intro blocks
  induction blocks with
  | nil =>
    intro trs h
    simp only [runToolUses, Except.ok.injEq] at h
    subst h
    exact ⟨rfl, by intro b hb; cases hb⟩
  | cons b rest ih =>
    intro trs h
    match b with
    | .toolUse id name input c =>
      rw [runToolUses] at h
      cases hd : dispatch name input with
      | error e => rw [hd] at h; cases h
      | ok r =>
        rw [hd] at h
        cases hrec : (runToolUses dispatch rest).2 with
        | error e =>
          rw [hrec] at h
          cases h
        | ok trs' =>
          rw [hrec] at h
          simp only [Except.map, Except.ok.injEq] at h
          subst h
          obtain ⟨ih1, ih2⟩ := ih trs' hrec
          obtain ⟨hid, htr⟩ := makeApiToolResult_id r id
          refine ⟨?_, ?_⟩
          · simp only [List.map_cons, hid, toolUseIds, List.filterMap_cons]
            exact congrArg _ ih1
          · intro b' hb'
            rcases List.mem_cons.mp hb' with hb' | hb'
            · rw [hb']; exact htr
            · exact ih2 b' hb'
    | .text s c =>
      simp only [runToolUses] at h
      obtain ⟨ih1, ih2⟩ := ih trs h
      exact ⟨by simpa only [toolUseIds, List.filterMap_cons] using ih1, ih2⟩
    | .thinking s sig c =>
      simp only [runToolUses] at h
      obtain ⟨ih1, ih2⟩ := ih trs h
      exact ⟨by simpa only [toolUseIds, List.filterMap_cons] using ih1, ih2⟩
    | .toolResult id tc e c =>
      simp only [runToolUses] at h
      obtain ⟨ih1, ih2⟩ := ih trs h
      exact ⟨by simpa only [toolUseIds, List.filterMap_cons] using ih1, ih2⟩

/-- **C8** — the tool-result turn the loop appends after an assistant
turn contains exactly one `tool_result` block per `tool_use` block of
that assistant turn, with equal `tool_use_id`s in order (so every
appended `tool_result` references a `tool_use` of the immediately
preceding assistant turn), and when the assistant turn has no `tool_use`
blocks no tool-result turn is appended at all. -/
theorem c8_tool_result_turn_matches
    (dispatch : String → List (String × String) → Except String ToolResultV)
    (blocks : List Block) (evs : List Event) (trs : List Block)
    (hrun : runToolUses dispatch blocks = (evs, .ok trs)) :
    trs.map toolResultId = (toolUseIds blocks).map some ∧
    trs.length = (toolUseIds blocks).length ∧
    (∀ b ∈ trs, isToolResultBlock b = true) ∧
    ∀ (isTimeout : Nat → Bool) (provider : APIProvider) (n : Nat)
      (onims : Option Int) (sys : SysBlock) (msgs msgs0 : List Message)
      (sys0 : SysBlock) (onims0 : Option Int) (pr : Bool) (rq rs : Nat),
      isTimeout n = false → isTimeout (n + 1) = true →
      preCallPhase provider onims msgs sys = .ok (msgs0, sys0, onims0, pr) →
      (loopGo dispatch isTimeout provider n [.success blocks rq rs]
          onims sys msgs).messages =
        msgs0 ++ [⟨.assistant, .blocks blocks⟩] ++
          (if trs.isEmpty then [] else [⟨.user, .blocks trs⟩]) := by
  have hrun2 : (runToolUses dispatch blocks).2 = .ok trs := by rw [hrun]
  obtain ⟨hids, htr⟩ := runToolUses_ids dispatch blocks trs hrun2
  refine ⟨hids, ?_, htr, ?_⟩
  · have := congrArg List.length hids
    simpa using this
  · intro isTimeout provider n onims sys msgs msgs0 sys0 onims0 pr rq rs ht ht2 hpre
    rw [loopGo, ht]
    simp only [Bool.false_eq_true, if_false, hpre]
    match trs, hrun with
    | [], hrun =>
      simp only [hrun, List.isEmpty_nil, if_true, List.append_nil]
    | t :: ts, hrun =>
      simp only [hrun, loopGo, ht2, if_true, List.isEmpty_cons]
      simp [List.append_assoc]

/-- A dispatcher whose every call succeeds with a fixed text output. -/
def okDispatch : String → List (String × String) → Except String ToolResultV :=
  fun _ _ => .ok { output := some "ok" }

/-- The blocks of the spec scenario: two `tool_use` blocks and one text
block. -/
def blocksEx : List Block :=
  [.toolUse "i1" "t" [] false, .text "hi" false, .toolUse "i2" "t" [] false]

/-- The two error-free tool-result blocks produced for `blocksEx`. -/
def trsEx : List Block :=
  [.toolResult "i1" (.items [.nonImage "text" "ok"]) false false,
   .toolResult "i2" (.items [.nonImage "text" "ok"]) false false]

/-- The events emitted while dispatching `blocksEx`. -/
def evsEx : List Event :=
  [.outputCb (.toolUse "i1" "t" [] false),
   .toolOutputCb { output := some "ok" } "i1",
   .outputCb (.text "hi" false),
   .outputCb (.toolUse "i2" "t" [] false),
   .toolOutputCb { output := some "ok" } "i2"]

/-- **C8 witness** -/
theorem c8_tool_result_turn_matches_witness :
    trsEx.map toolResultId = (toolUseIds blocksEx).map some ∧
    trsEx.length = (toolUseIds blocksEx).length ∧
    (∀ b ∈ trsEx, isToolResultBlock b = true) ∧
    ∀ (isTimeout : Nat → Bool) (provider : APIProvider) (n : Nat)
      (onims : Option Int) (sys : SysBlock) (msgs msgs0 : List Message)
      (sys0 : SysBlock) (onims0 : Option Int) (pr : Bool) (rq rs : Nat),
      isTimeout n = false → isTimeout (n + 1) = true →
      preCallPhase provider onims msgs sys = .ok (msgs0, sys0, onims0, pr) →
      (loopGo okDispatch isTimeout provider n [.success blocksEx rq rs]
          onims sys msgs).messages =
        msgs0 ++ [⟨.assistant, .blocks blocksEx⟩] ++
          (if trsEx.isEmpty then [] else [⟨.user, .blocks trsEx⟩]) :=
  c8_tool_result_turn_matches okDispatch blocksEx evsEx trsEx rfl

/-- Is an event an API-response observer invocation? -/
def isApiCallbackEvent : Event → Bool
  | .apiCallback _ _ _ => true
  | _ => false

/-- Outcomes on which the provider call raised. -/
def isErrorOutcome : ProviderOutcome → Bool
  | .success _ _ _ => false
  | _ => true

theorem runToolUses_no_api_events
    (dispatch : String → List (String × String) → Except String ToolResultV) :
    ∀ blocks : List Block,
    (runToolUses dispatch blocks).1.filter isApiCallbackEvent = [] := by
  intro blocks
  induction blocks with
  | nil => rfl
  | cons b rest ih =>
    match b with
    | .toolUse id name input c =>
      rw [runToolUses]
      cases hd : dispatch name input with
      | error e => rfl
      | ok r => simp [isApiCallbackEvent, ih]
    | .text s c =>
      simp only [runToolUses]
      simp [isApiCallbackEvent, ih]
    | .thinking s sig c =>
      simp only [runToolUses]
      simp [isApiCallbackEvent, ih]
    | .toolResult id tc e c =>
      simp only [runToolUses]
      simp [isApiCallbackEvent, ih]

/-- **C6** — the API-response observer fires exactly once per provider
call issued, with the success payload on success and the error payload on
a structured API error or a malformed/unvalidated response (the observer
invocations are exactly the per-outcome callbacks of the attempts made,
in order); and on a failing provider call the loop terminates at once,
returning the transcript accumulated so far with no further provider
call. -/
theorem c6_api_observer_exactly_once
    (dispatch : String → List (String × String) → Except String ToolResultV)
    (isTimeout : Nat → Bool) (provider : APIProvider) :
    (∀ (n : Nat) (script : List ProviderOutcome) (onims : Option Int)
       (sys : SysBlock) (messages : List Message),
      (loopGo dispatch isTimeout provider n script onims sys
          messages).events.filter isApiCallbackEvent =
        (script.take (loopGo dispatch isTimeout provider n script onims sys
          messages).attempts).map outcomeCallback) ∧
    ∀ (n : Nat) (out : ProviderOutcome) (rest : List ProviderOutcome)
      (onims : Option Int) (sys : SysBlock) (messages msgs0 : List Message)
      (sys0 : SysBlock) (onims0 : Option Int) (pr : Bool),
      isErrorOutcome out = true → isTimeout n = false →
      preCallPhase provider onims messages sys = .ok (msgs0, sys0, onims0, pr) →
      loopGo dispatch isTimeout provider n (out :: rest) onims sys messages =
        ⟨msgs0, [outcomeCallback out], none, 1⟩ := by
  constructor
  · intro n script
    induction script generalizing n with
    | nil =>
      intro onims sys messages
      rw [loopGo]
      cases hT : isTimeout n with
      | true => rfl
      | false =>
        simp only [Bool.false_eq_true, if_false]
        cases hpre : preCallPhase provider onims messages sys with
        | error e => rfl
        | ok q => obtain ⟨msgs0, sys0, onims0, pr4⟩ := q; rfl
    | cons out rest ih =>
      intro onims sys messages
      rw [loopGo]
      cases hT : isTimeout n with
      | true => rfl
      | false =>
        simp only [Bool.false_eq_true, if_false]
        cases hpre : preCallPhase provider onims messages sys with
        | error e => rfl
        | ok q =>
          obtain ⟨msgs0, sys0, onims0, pr4⟩ := q
          cases out with
          | statusError rq rs => rfl
          | apiError rq bd => rfl
          | success blocks rq rs =>
            simp only []
            cases hr : (runToolUses dispatch blocks).2 with
            | error e =>
              simp [isApiCallbackEvent, outcomeCallback,
                runToolUses_no_api_events dispatch blocks]
            | ok trs =>
              cases trs with
              | nil =>
                simp [hr, isApiCallbackEvent, outcomeCallback,
                  runToolUses_no_api_events dispatch blocks]
              | cons t ts =>
                simp only [hr, List.filter_append, List.filter_cons,
                  isApiCallbackEvent, if_true,
                  runToolUses_no_api_events dispatch blocks, List.nil_append,
                  List.take_succ_cons, List.map_cons]
                rw [ih]
                simp [outcomeCallback]
  · intro n out rest onims sys messages msgs0 sys0 onims0 pr hout hT hpre
    rw [loopGo, hT]
    simp only [Bool.false_eq_true, if_false, hpre]
    cases out with
    | statusError rq rs => rfl
    | apiError rq bd => rfl
    | success blocks rq rs => cases hout

/-- **C6 witness** -/
theorem c6_api_observer_exactly_once_witness :
    ((loopGo okDispatch (fun _ => false) .bedrock 0 [.statusError 3 4] none
        ⟨"s", false⟩ []).events.filter isApiCallbackEvent =
      (([ProviderOutcome.statusError 3 4]).take
        (loopGo okDispatch (fun _ => false) .bedrock 0 [.statusError 3 4] none
          ⟨"s", false⟩ []).attempts).map outcomeCallback) ∧
    loopGo okDispatch (fun _ => false) .bedrock 0
        (.statusError 3 4 :: []) none ⟨"s", false⟩ [] =
      ⟨[], [outcomeCallback (.statusError 3 4)], none, 1⟩ :=
  ⟨(c6_api_observer_exactly_once okDispatch (fun _ => false) .bedrock).1
      0 [.statusError 3 4] none ⟨"s", false⟩ [],
   (c6_api_observer_exactly_once okDispatch (fun _ => false) .bedrock).2
      0 (.statusError 3 4) [] none ⟨"s", false⟩ [] [] ⟨"s", false⟩ none false
      rfl rfl rfl⟩

/-- The cache flags of every content block of the transcript, per turn. -/
def blockHintsOf (msgs : List Message) : List (List Bool) :=
  msgs.map fun m =>
    match m.content with
    | .blocks bs => bs.map blockHinted
    | .str _ => []

theorem blockHinted_stripBlock (b : Block) :
    blockHinted (stripBlock b) = blockHinted b := by
  match b with
  | .text s c => rfl
  | .thinking s sig c => rfl
  | .toolUse id n inp c => rfl
  | .toolResult id (.items l) e c => rfl
  | .toolResult id (.str s) e c => rfl

theorem blockHintsOf_stripMsgs (msgs : List Message) :
    blockHintsOf (stripMsgs msgs) = blockHintsOf msgs := by
  induction msgs with
  | nil => rfl
  | cons m rest ih =>
    match m with
    | ⟨role, .blocks bs⟩ =>
      simp only [stripMsgs, List.map_cons, blockHintsOf, stripMsg, List.map_map]
      refine congrArg₂ _ ?_ (by simpa [stripMsgs, blockHintsOf] using ih)
      exact List.map_congr_left fun b _ => blockHinted_stripBlock b
    | ⟨role, .str s⟩ =>
      simp only [stripMsgs, List.map_cons, blockHintsOf, stripMsg]
      exact congrArg _ (by simpa [stripMsgs, blockHintsOf] using ih)

/-- **C7** — with the primary (Anthropic) provider the pre-call phase
enables prompt caching: it injects cache hints, overrides the
image-retention limit to `0` and marks the system block, and no image
pruning runs in the iteration regardless of the configured limit; with
any other provider the system block is left unmarked and no hints are
injected (every block's cache flag is unchanged), pruning running
exactly when the configured limit is truthy. -/
theorem c7_caching_overrides_pruning (onims : Option Int) (msgs : List Message)
    (sys : SysBlock) :
    preCallPhase .anthropic onims msgs sys =
      (injectPromptCaching msgs).map
        (fun m0 => (m0, { sys with cache := true }, some 0, false)) ∧
    ∀ p : APIProvider, p ≠ .anthropic →
      ∀ m0 sys0 onims0 pr,
        preCallPhase p onims msgs sys = .ok (m0, sys0, onims0, pr) →
        sys0 = sys ∧ onims0 = onims ∧ pr = truthyOpt onims ∧
        blockHintsOf m0 = blockHintsOf msgs := by
  constructor
  · rfl
  · intro p hp m0 sys0 onims0 pr h
    rw [preCallPhase] at h
    rw [if_neg hp] at h
    cases hT : truthyOpt onims with
    | false =>
      rw [hT] at h
      simp only [Bool.false_eq_true, if_false, Except.ok.injEq, Prod.mk.injEq] at h
      obtain ⟨rfl, rfl, rfl, rfl⟩ := h
      exact ⟨rfl, rfl, rfl, rfl⟩
    | true =>
      rw [hT] at h
      simp only [if_true] at h
      match onims, hT with
      | some v, hT =>
        have hv : v ≠ 0 := by simpa [truthyOpt] using hT
        rw [maybeFilterToNMostRecentImages] at h
        simp only [Option.getD_some, if_neg hv, Except.map, Except.ok.injEq,
          Prod.mk.injEq] at h
        obtain ⟨rfl, rfl, rfl, rfl⟩ := h
        refine ⟨rfl, rfl, rfl, ?_⟩
        rw [← blockHintsOf_stripMsgs (pruneMsgs _ msgs).1, pruneMsgs_strip,
          blockHintsOf_stripMsgs]

/-- **C7 witness** — a bedrock iteration with a configured limit of 1 on
a transcript holding two images prunes without touching hints, while the
Anthropic branch overrides the limit. -/
theorem c7_caching_overrides_pruning_witness :
    (preCallPhase .anthropic (some 1) scenarioMsgs ⟨"s", false⟩ =
      (injectPromptCaching scenarioMsgs).map
        (fun m0 => (m0, { text := "s", cache := true }, some 0, false)) ∧
    ∀ p : APIProvider, p ≠ .anthropic →
      ∀ m0 sys0 onims0 pr,
        preCallPhase p (some 1) scenarioMsgs ⟨"s", false⟩ =
          .ok (m0, sys0, onims0, pr) →
        sys0 = ⟨"s", false⟩ ∧ onims0 = some 1 ∧ pr = truthyOpt (some 1) ∧
        blockHintsOf m0 = blockHintsOf scenarioMsgs) :=
  c7_caching_overrides_pruning (some 1) scenarioMsgs ⟨"s", false⟩

/-- **C2** — the event-recording helpers are indeed no-ops when the
evaluator is absent, but the loop itself is not evaluator-optional: the
unconditional `evaluator.config` reads at loop entry raise
`AttributeError` when `sampling_loop` is called with its declared default
`evaluator=None`, instead of behaving like a configured evaluator that
records nothing. -/
theorem c2_evaluator_none_crashes :
    samplingLoopConfigAccess none =
      .error "AttributeError: 'NoneType' object has no attribute 'config'" ∧
    recordToolCallStart none (some "task1") "toolA" = [] ∧
    recordToolCallEnd none (some "task1") "toolA" { output := some "out" } = [] ∧
    recordToolCallStart (some ⟨⟨[], "mixed"⟩⟩) none "toolA" = [] ∧
    samplingLoopConfigAccess (some ⟨⟨[], "mixed"⟩⟩) = .ok ([], "mixed") :=
  ⟨rfl, rfl, rfl, rfl, rfl⟩

end CompUse
